import Mathlib

/-!
Verification of the Connection Prep Agent core (src/app.py) against its
natural-language specification.

Texts are modelled as `List Char` (`Str`).  Python machine behaviour is
modelled explicitly: `str.strip` as `pyStrip` (common whitespace),
`str.find` / `str.rfind` as `Int`-returning searches (`-1` on failure),
`str.replace` as leftmost non-overlapping replacement, `json.loads` as a
total recursive-descent parser `json_loads` returning `Option Json`
(`none` models a raised `JSONDecodeError`).  Fallible model capabilities
(the `transformers` pipelines) are functions returning `Option Str`,
where `none` models a raised exception; results of the orchestration
functions are paired with the list of capability invocations they made.
-/

abbrev Str := List Char

def cs (s : String) : Str := s.data

/-- Model of Python `str.isspace` characters handled by `str.strip()`
(restricted to the common ASCII whitespace characters). -/
def pyIsSpace (c : Char) : Bool :=
  c = ' ' ∨ c = '\t' ∨ c = '\n' ∨ c = '\r' ∨ c = '\x0b' ∨ c = '\x0c'

/-- Model of Python `s.strip()`. -/
def pyStrip (s : Str) : Str :=
  ((s.dropWhile pyIsSpace).reverse.dropWhile pyIsSpace).reverse

/-- Model of Python `s.find(c)`: index of first occurrence, `-1` if absent. -/
def pyFind (s : Str) (c : Char) : Int :=
  match s.findIdx? (fun d => d = c) with
  | some i => (i : Int)
  | none => -1

/-- Model of Python `s.rfind(c)`: index of last occurrence, `-1` if absent. -/
def pyRfind (s : Str) (c : Char) : Int :=
  match s.reverse.findIdx? (fun d => d = c) with
  | some i => ((s.length - 1 - i : Nat) : Int)
  | none => -1

/-- Model of the Python slice `s[a:b]` for `0 ≤ a ≤ b`. -/
def pySlice (s : Str) (a b : Nat) : Str :=
  (s.take b).drop a

/-- Model of Python `s.replace(p, r)` (leftmost, non-overlapping), for a
non-empty pattern `p`; implemented with fuel equal to the input length. -/
def pyReplace (p r : Str) (s : Str) : Str :=
  go s.length s
where
  go : Nat → Str → Str
    | 0, rest => rest
    | _ + 1, [] => []
    | fuel + 1, c :: rest =>
      if p.isPrefixOf (c :: rest) then r ++ go fuel ((c :: rest).drop p.length)
      else c :: go fuel rest

/-! ## chunk_text (src/app.py lines 61-77) -/

/-- The sliding-window loop of `chunk_text`, producing the `(start, end)`
index pairs the loop slices at, over a text of length `n`.  The fuel
argument makes the Python `while` loop total; `chunkSpans` supplies fuel
`n + 1`, which never runs out when `overlap < chunk_size` (each round
advances `start` by `chunk_size - overlap ≥ 1`). -/
def chunkSpansGo (n chunk_size overlap : Nat) : Nat → Nat → List (Nat × Nat)
  | 0, _ => []
  | fuel + 1, start =>
    if start < n then
      let e := min (start + chunk_size) n
      (start, e) :: (if e = n then [] else chunkSpansGo n chunk_size overlap fuel (e - overlap))
    else []

def chunkSpans (n chunk_size overlap : Nat) : List (Nat × Nat) :=
  chunkSpansGo n chunk_size overlap (n + 1) 0

/-- Embedding of `chunk_text(s, chunk_size=1600, overlap=150)`: strips the input, then
collects the slices `s[start:end]` of the sliding-window loop.  The
`start = end - overlap` step of the source clamps at `0`, which `Nat`
subtraction performs implicitly. -/
def chunk_text (s : Str) (chunk_size : Nat := 1600) (overlap : Nat := 150) : List Str :=
  let s' := pyStrip s
  if s' = [] then []
  else (chunkSpans s'.length chunk_size overlap).map (fun p => pySlice s' p.1 p.2)

/-! ## Capability model and call traces -/

/-- One capability invocation made by the pipeline: a summarization call
(`summarizer(input, max_length, min_length, do_sample=False)`) or a
generation call (`generator(prompt, max_length, do_sample=False)`). -/
inductive Call where
  | summ (input : Str) (maxLen minLen : Nat)
  | gen (prompt : Str) (maxLen : Nat)
deriving DecidableEq

def Call.isGen : Call → Bool
  | Call.summ _ _ _ => false
  | Call.gen _ _ => true

/-- A summarization capability: input text and the two length hints; `none`
models a raised exception. -/
abbrev Summarizer := Str → Nat → Nat → Option Str

/-- A generation capability: prompt and `max_length`; `none` models a
raised exception. -/
abbrev Generator := Str → Nat → Option Str

/-- The per-chunk summarization loop of `summarize_long_text` (lines
84-86).  Returns the collected summaries (`none` if a call raised, which
in the source aborts the whole loop) together with the calls made. -/
def summLoop (f : Summarizer) (maxLen minLen : Nat) : List Str → Option (List Str) × List Call
  | [] => (some [], [])
  | p :: rest =>
    match f p maxLen minLen with
    | none => (none, [Call.summ p maxLen minLen])
    | some s =>
      match summLoop f maxLen minLen rest with
      | (none, tr) => (none, Call.summ p maxLen minLen :: tr)
      | (some ss, tr) => (some (s :: ss), Call.summ p maxLen minLen :: tr)

/-- Embedding of `summarize_long_text(summarizer, text, max_len=220, min_len=80)`
(lines 79-92).  The first component is the returned summary (`none` when
a capability exception propagates), the second the capability calls made. -/
def summarize_long_text (f : Summarizer) (text : Str) (max_len : Nat := 220) (min_len : Nat := 80) :
    Option Str × List Call :=
  if text = [] ∨ pyStrip text = [] then (some [], [])
  else
    match summLoop f max_len min_len (chunk_text text 1600 150) with
    | (none, tr) => (none, tr)
    | (some summaries, tr) =>
      if summaries.length = 1 then (some (summaries.headD []), tr)
      else
        match f (List.intercalate (cs " ") summaries) max_len min_len with
        | none =>
          (none, tr ++ [Call.summ (List.intercalate (cs " ") summaries) max_len min_len])
        | some fin =>
          (some fin, tr ++ [Call.summ (List.intercalate (cs " ") summaries) max_len min_len])

/-! ## Model of `json.loads` (Python standard library, used at lines 162/168) -/

/-- A parsed JSON value.  Numbers keep their source lexeme (Python turns
them into `int`/`float`; no claim depends on numeric arithmetic). -/
inductive Json where
  | null
  | bool (b : Bool)
  | num (lit : Str)
  | str (s : Str)
  | arr (xs : List Json)
  | obj (kvs : List (Str × Json))

/-- JSON insignificant whitespace (as in Python's `json` module). -/
def jsonWs (c : Char) : Bool :=
  c = ' ' ∨ c = '\t' ∨ c = '\n' ∨ c = '\r'

def skipWs (l : Str) : Str := l.dropWhile jsonWs

def hexVal (c : Char) : Option Nat :=
  if '0' ≤ c ∧ c ≤ '9' then some (c.toNat - '0'.toNat)
  else if 'a' ≤ c ∧ c ≤ 'f' then some (c.toNat - 'a'.toNat + 10)
  else if 'A' ≤ c ∧ c ≤ 'F' then some (c.toNat - 'A'.toNat + 10)
  else none

def hex4 (a b c d : Char) : Option Nat := do
  let x1 ← hexVal a
  let x2 ← hexVal b
  let x3 ← hexVal c
  let x4 ← hexVal d
  some (((x1 * 16 + x2) * 16 + x3) * 16 + x4)

/-- Body of a JSON string, after the opening quote.  Strict mode: raw
control characters are rejected; the escapes of RFC 8259 are accepted,
with `\uXXXX` surrogate pairs combined (a lone surrogate, which Python
would keep as such, is mapped through `Char.ofNat`). -/
def parseStringBody : Nat → Str → Option (Str × Str)
  | 0, _ => none
  | fuel + 1, l =>
    match l with
    | [] => none
    | '"' :: rest => some ([], rest)
    | '\\' :: esc :: rest =>
      let cont := fun (c : Char) (r : Str) =>
        (parseStringBody fuel r).map (fun p => (c :: p.1, p.2))
      match esc with
      | '"' => cont '"' rest
      | '\\' => cont '\\' rest
      | '/' => cont '/' rest
      | 'b' => cont '\x08' rest
      | 'f' => cont '\x0c' rest
      | 'n' => cont '\n' rest
      | 'r' => cont '\r' rest
      | 't' => cont '\t' rest
      | 'u' =>
        match rest with
        | a :: b :: c :: d :: rest2 =>
          match hex4 a b c d with
          | none => none
          | some h =>
            if 0xD800 ≤ h ∧ h ≤ 0xDBFF then
              match rest2 with
              | '\\' :: 'u' :: a2 :: b2 :: c2 :: d2 :: rest3 =>
                match hex4 a2 b2 c2 d2 with
                | some h2 =>
                  if 0xDC00 ≤ h2 ∧ h2 ≤ 0xDFFF then
                    cont (Char.ofNat (0x10000 + (h - 0xD800) * 0x400 + (h2 - 0xDC00))) rest3
                  else cont (Char.ofNat h) rest2
                | none => cont (Char.ofNat h) rest2
              | _ => cont (Char.ofNat h) rest2
            else cont (Char.ofNat h) rest2
        | _ => none
      | _ => none
    | c :: rest =>
      if c.toNat < 0x20 then none
      else (parseStringBody fuel rest).map (fun p => (c :: p.1, p.2))

def isDigitCh (c : Char) : Bool := '0' ≤ c ∧ c ≤ '9'

/-- A JSON number, returned as its lexeme together with the rest of the
input.  Follows the RFC 8259 grammar; a malformed tail (such as `1.` or
`1e`) stops before the offending characters, which then make the
enclosing parse fail exactly as Python's does. -/
def parseNumber (l : Str) : Option (Str × Str) :=
  let (sign, l1) :=
    match l with
    | '-' :: r => (['-'], r)
    | _ => (([] : Str), l)
  match l1 with
  | [] => none
  | c :: _ =>
    if ¬ isDigitCh c then none
    else
      let (ip, r1) :=
        match l1 with
        | '0' :: r => ((['0'] : Str), r)
        | _ => (l1.takeWhile isDigitCh, l1.dropWhile isDigitCh)
      let (fp, r2) :=
        match r1 with
        | '.' :: r =>
          if (r.takeWhile isDigitCh) ≠ [] then
            ('.' :: r.takeWhile isDigitCh, r.dropWhile isDigitCh)
          else (([] : Str), r1)
        | _ => (([] : Str), r1)
      let (ep, r3) :=
        match r2 with
        | e :: r =>
          if e = 'e' ∨ e = 'E' then
            let (es, r') :=
              match r with
              | '+' :: r'' => ((['+'] : Str), r'')
              | '-' :: r'' => ((['-'] : Str), r'')
              | _ => (([] : Str), r)
            if (r'.takeWhile isDigitCh) ≠ [] then
              (e :: es ++ r'.takeWhile isDigitCh, r'.dropWhile isDigitCh)
            else (([] : Str), r2)
          else (([] : Str), r2)
        | _ => (([] : Str), r2)
      some (sign ++ ip ++ fp ++ ep, r3)

/-- Insert into a model Python dict: an existing key keeps its position
and gets the new value, a new key is appended. -/
def objInsert (kvs : List (Str × Json)) (k : Str) (v : Json) : List (Str × Json) :=
  match kvs with
  | [] => [(k, v)]
  | (k', v') :: rest => if k' = k then (k, v) :: rest else (k', v') :: objInsert rest k v

/-- The members of a JSON object (after `{` and leading whitespace, when
the object is not empty), parsed with the given value parser; returns the
key/value pairs in source order. -/
def parseMembers (pv : Str → Option (Json × Str)) : Nat → Str → Option (List (Str × Json) × Str)
  | 0, _ => none
  | fuel + 1, l =>
    match l with
    | '"' :: r =>
      match parseStringBody (r.length + 1) r with
      | none => none
      | some (k, r2) =>
        match skipWs r2 with
        | ':' :: r3 =>
          match pv (skipWs r3) with
          | none => none
          | some (v, r4) =>
            match skipWs r4 with
            | ',' :: r5 =>
              match parseMembers pv fuel (skipWs r5) with
              | none => none
              | some (kvs, r6) => some ((k, v) :: kvs, r6)
            | '\x7d' :: r5 => some ([(k, v)], r5)
            | _ => none
        | _ => none
    | _ => none

/-- The elements of a JSON array (after `[` and leading whitespace, when
the array is not empty), parsed with the given value parser. -/
def parseElems (pv : Str → Option (Json × Str)) : Nat → Str → Option (List Json × Str)
  | 0, _ => none
  | fuel + 1, l =>
    match pv l with
    | none => none
    | some (v, r) =>
      match skipWs r with
      | ',' :: r2 =>
        match parseElems pv fuel (skipWs r2) with
        | none => none
        | some (vs, r3) => some (v :: vs, r3)
      | ']' :: r2 => some ([v], r2)
      | _ => none

/-- A JSON value, expected at the head of the input (leading whitespace
already skipped).  The fuel bounds container nesting depth; every descent
consumes an opening bracket, so the fuel `length + 1` supplied by
`json_loads` never runs out.  `NaN`, `Infinity` and `-Infinity` are
accepted, as by Python's default `json.loads`. -/
def parseValue : Nat → Str → Option (Json × Str)
  | 0, _ => none
  | fuel + 1, l =>
    if (cs "true").isPrefixOf l then some (Json.bool true, l.drop 4)
    else if (cs "false").isPrefixOf l then some (Json.bool false, l.drop 5)
    else if (cs "null").isPrefixOf l then some (Json.null, l.drop 4)
    else if (cs "NaN").isPrefixOf l then some (Json.num (cs "NaN"), l.drop 3)
    else if (cs "Infinity").isPrefixOf l then some (Json.num (cs "Infinity"), l.drop 8)
    else if (cs "-Infinity").isPrefixOf l then some (Json.num (cs "-Infinity"), l.drop 9)
    else
      match l with
      | '\x7b' :: rest =>
        match skipWs rest with
        | '\x7d' :: r2 => some (Json.obj [], r2)
        | r2 =>
          match parseMembers (parseValue fuel) (r2.length + 1) r2 with
          | none => none
          | some (kvs, r3) =>
            some (Json.obj (kvs.foldl (fun acc kv => objInsert acc kv.1 kv.2) []), r3)
      | '[' :: rest =>
        match skipWs rest with
        | ']' :: r2 => some (Json.arr [], r2)
        | r2 =>
          match parseElems (parseValue fuel) (r2.length + 1) r2 with
          | none => none
          | some (vs, r3) => some (Json.arr vs, r3)
      | '"' :: rest =>
        match parseStringBody (rest.length + 1) rest with
        | none => none
        | some (s, r) => some (Json.str s, r)
      | _ =>
        match parseNumber l with
        | none => none
        | some (x, r) => some (Json.num x, r)

/-- Model of `json.loads(s)`: parse one JSON document, demanding that
only whitespace follows; `none` models a raised `JSONDecodeError`. -/
def json_loads (s : Str) : Option Json :=
  match parseValue (s.length + 1) (skipWs s) with
  | none => none
  | some (v, rest) => if skipWs rest = [] then some v else none

/-! ## extract_json (src/app.py lines 154-172) -/

/-- Embedding of `extract_json(s)` (lines 154-170, the inner helper of
`generate_brief`): strip, narrow to the first-`{`-to-last-`}` span when
one exists, try the strict parse, on failure apply the two textual
normalizations and retry, and on a second failure return the
`raw_text` fallback dict holding the current (processed) text. -/
def extract_json (s0 : Str) : Json :=
  let s1 := pyStrip s0
  let st := pyFind s1 '\x7b'
  let en := pyRfind s1 '\x7d'
  let s2 := if st ≠ -1 ∧ en ≠ -1 ∧ st < en then pySlice s1 st.toNat (en.toNat + 1) else s1
  match json_loads s2 with
  | some v => v
  | none =>
    let s3 := pyReplace (cs "\n- ") (cs "\n") s2
    let s4 := pyReplace (cs "–") (cs "-") (pyReplace (cs "—") (cs "-") s3)
    match json_loads s4 with
    | some v => v
    | none => Json.obj [(cs "raw_text", Json.str s4)]

/-! ## load_models (src/app.py lines 48-59)

The three `transformers` pipelines are external collaborators, passed in
as capability handles; `load_models` performs the engine dispatch of the
source (the summarizer is the same DistilBART pipeline in every branch,
the generator is FLAN-T5 base/small or absent). -/

def load_models (distilbart : Summarizer) (flan_small flan_base : Generator)
    (engine_name : Str) : Summarizer × Option Generator :=
  if engine_name = cs "Summarization‑only (fastest, least smart)" then (distilbart, none)
  else if engine_name = cs "Quality (FLAN-T5-base + DistilBART)" then (distilbart, some flan_base)
  else (distilbart, some flan_small)

/-! ## The instruction template (src/app.py lines 120-150) -/

/-- Python `str(n)` for the interpolated integers. -/
def pyStrNat (n : Nat) : Str := (Nat.repr n).data

/-- The f-string of `generate_brief` (lines 120-150) as its ordered list
of literal and interpolated segments; a conditionally-included request
line contributes the empty segment when its flag is off. -/
def templateSegments (profile_text profile_sum posts_sum goal_sum : Str) (bullets : Nat)
    (include_agenda include_dm_email : Bool) : List Str :=
  [ cs "\nYou are an assistant that prepares a crisp, tactful 1‑page meeting brief based on a LinkedIn profile and (optional) recent posts.\nReturn **only valid JSON** with the following keys:\n\n- profile_snapshot: 3 short lines summarizing the person\x27s seniority, domain, and value focus.\n- top_skills: up to ",
    pyStrNat bullets,
    cs " bullet phrases of key skills or tools (short, no sentences).\n- domain_knowledge: up to ",
    pyStrNat bullets,
    cs " bullet phrases of industry/functional expertise.\n- mutual_interests: infer 3–",
    pyStrNat (max 3 (min bullets 6)),
    cs " items from education, locations, groups, or interests.\n- talking_points: up to ",
    pyStrNat bullets,
    cs " specific, positive topics to discuss based on their posts/activities (if posts provided).\n- icebreakers: 3–5 friendly openers tailored to the person.\n- opening_question: one smart, respectful, open-ended question.\n",
    (if include_dm_email then cs "- sample_dm: 2–3 sentence LinkedIn DM to request a short chat." else []),
    cs "\n",
    (if include_dm_email then cs "- email_subject: short subject line for an intro email." else []),
    cs "\n",
    (if include_agenda then cs "- meeting_agenda: 3–5 bullet agenda items for a 15–30 min call." else []),
    cs "\n\nWrite concise items. Be specific and avoid generic fluff.\nIf not enough info, make reasonable, neutral inferences. Do not hallucinate company names or facts not present.\n\nINPUT:\n[PROFILE]\n",
    profile_text,
    cs "\n\n[PROFILE_SUMMARY]\n",
    profile_sum,
    cs "\n\n[RECENT_POSTS_SUMMARY]\n",
    posts_sum,
    cs "\n\n[MEETING_GOAL]\n",
    goal_sum,
    cs "\n" ]

def buildTemplate (profile_text profile_sum posts_sum goal_sum : Str) (bullets : Nat)
    (include_agenda include_dm_email : Bool) : Str :=
  (templateSegments profile_text profile_sum posts_sum goal_sum bullets
    include_agenda include_dm_email).flatten

/-! ## generate_brief (src/app.py lines 94-172) -/

/-- Embedding of `generate_brief(profile_text, posts_text, goal_text, engine_name,
bullets, include_agenda, include_dm_email)`.  The capability handles of
`load_models` come first; the first result component is the returned
brief dict (`none` when a capability exception propagates), the second
the capability calls made. -/
def generate_brief (distilbart : Summarizer) (flan_small flan_base : Generator)
    (profile_text posts_text goal_text engine_name : Str) (bullets : Nat)
    (include_agenda include_dm_email : Bool) : Option Json × List Call :=
  let sg := load_models distilbart flan_small flan_base engine_name
  let summarizer := sg.1
  let generator := sg.2
  let pr := if profile_text ≠ [] then summarize_long_text summarizer profile_text 220 80
            else (some [], [])
  match pr with
  | (none, tr1) => (none, tr1)
  | (some profile_sum, tr1) =>
    let po := if posts_text ≠ [] then summarize_long_text summarizer posts_text 150 60
              else (some [], [])
    match po with
    | (none, tr2) => (none, tr1 ++ tr2)
    | (some posts_sum, tr2) =>
      let goal_sum := pyStrip goal_text
      match generator with
      | none =>
        (some (Json.obj
          [ (cs "profile_snapshot", Json.str (profile_sum.take 700)),
            (cs "top_skills", Json.arr []),
            (cs "domain_knowledge", Json.arr []),
            (cs "mutual_interests", Json.arr []),
            (cs "talking_points", Json.arr (if posts_sum ≠ [] then [Json.str posts_sum] else [])),
            (cs "icebreakers", Json.arr []),
            (cs "opening_question", Json.str []),
            (cs "sample_dm", Json.str []),
            (cs "email_subject", Json.str []),
            (cs "meeting_agenda", Json.arr []) ]), tr1 ++ tr2)
      | some g =>
        let template := buildTemplate profile_text profile_sum posts_sum goal_sum bullets
          include_agenda include_dm_email
        match g template 768 with
        | none => (none, tr1 ++ tr2 ++ [Call.gen template 768])
        | some raw => (some (extract_json raw), tr1 ++ tr2 ++ [Call.gen template 768])

/-! ## as_markdown (src/app.py lines 200-237) -/

/-- Lookup in a model Python dict (`b.get(key)`). -/
def objGet (kvs : List (Str × Json)) (k : Str) : Option Json :=
  match kvs.find? (fun kv => kv.1 == k) with
  | some kv => some kv.2
  | none => none

/-- Python truthiness of a number, from its lexeme. -/
def numIsZero (l : Str) : Bool :=
  let l1 := match l with | '-' :: r => r | _ => l
  let mant := l1.takeWhile (fun c => c ≠ 'e' ∧ c ≠ 'E')
  mant.all (fun c => c = '0' ∨ c = '.')

/-- Python truthiness (`bool(v)`) of a parsed JSON value. -/
def truthy : Json → Bool
  | Json.null => false
  | Json.bool b => b
  | Json.num l => !(numIsZero l)
  | Json.str s => !s.isEmpty
  | Json.arr xs => !xs.isEmpty
  | Json.obj kvs => !kvs.isEmpty

def truthyOpt : Option Json → Bool
  | some v => truthy v
  | none => false

/-- Python `repr` of a string: quote choice and the common escapes (the
model covers backslash, quotes, and `\n`/`\r`/`\t`; other control
characters are kept as-is). -/
def pyQuote (s : Str) : Str :=
  let q : Char := if s.contains '\x27' ∧ ¬ s.contains '"' then '"' else '\x27'
  let esc := fun (c : Char) =>
    if c = '\\' then cs "\\\\"
    else if c = q then ['\\', q]
    else if c = '\n' then cs "\\n"
    else if c = '\r' then cs "\\r"
    else if c = '\t' then cs "\\t"
    else [c]
  q :: (s.map esc).flatten ++ [q]

/-- Python `repr` of a parsed JSON value (as `str()` shows it inside a
rendered container). -/
def pyRepr : Json → Str
  | Json.null => cs "None"
  | Json.bool true => cs "True"
  | Json.bool false => cs "False"
  | Json.num l => l
  | Json.str s => pyQuote s
  | Json.arr xs =>
    '[' :: (List.intercalate (cs ", ") (xs.attach.map (fun x => pyRepr x.1))) ++ [']']
  | Json.obj kvs =>
    '\x7b' :: (List.intercalate (cs ", ")
      (kvs.attach.map (fun kv => pyQuote kv.1.1 ++ (cs ": ") ++ pyRepr kv.1.2))) ++ ['\x7d']
termination_by v => sizeOf v
decreasing_by
  · simp_wf
    have h := List.sizeOf_lt_of_mem x.2
    omega
  · simp_wf
    have h := List.sizeOf_lt_of_mem kv.2
    rcases kv with ⟨⟨a, b⟩, hmem⟩
    simp only [Prod.mk.sizeOf_spec] at h
    simp only []
    omega

/-- Python `str(x)` of a parsed JSON value. -/
def pyStr : Json → Str
  | Json.str s => s
  | v => pyRepr v

/-- Embedding of `join_bullets(key)` (lines 201-206), over the brief dict's entries.
`none` models the `TypeError` Python raises when the value is neither a
string nor iterable (a number or boolean); iterating a nested dict
yields its keys. -/
def join_bullets (kvs : List (Str × Json)) (key : Str) : Option Str :=
  let arr0 := match objGet kvs key with
    | some v => if truthy v then v else Json.arr []
    | none => Json.arr []
  let items : Option (List Json) :=
    match arr0 with
    | Json.str s => some [Json.str s]
    | Json.arr xs => some xs
    | Json.obj kvs2 => some (kvs2.map (fun kv => Json.str kv.1))
    | Json.num _ => none
    | Json.bool _ => none
    | Json.null => none
  items.map (fun xs =>
    let strs := (xs.map (fun x => pyStrip (pyStr x))).filter (fun t => !t.isEmpty)
    (strs.map (fun t => (cs "- ") ++ t ++ (cs "\n"))).flatten)

/-- Embedding of `b.get(key, '').strip()`: `none` models the `AttributeError` raised
when a present value is not a string. -/
def getStripDefault (kvs : List (Str × Json)) (key : Str) : Option Str :=
  match objGet kvs key with
  | none => some []
  | some (Json.str s) => some (pyStrip s)
  | some _ => none

/-- Embedding of `b[key].strip()` under a guard that `key` is present and truthy. -/
def getStripRequired (kvs : List (Str × Json)) (key : Str) : Option Str :=
  match objGet kvs key with
  | some (Json.str s) => some (pyStrip s)
  | _ => none

/-- Embedding of `as_markdown(b)` (lines 200-237): the fixed skeleton, then the three
conditional sections, each appended exactly when its key is present and
truthy in the dict — the `include_agenda` / `include_dm_email` settings
are not consulted.  `none` models a raised exception (non-dict argument,
or a section value of an unrenderable type). -/
def as_markdown (b : Json) : Option Str :=
  match b with
  | Json.obj kvs => do
    let snap ← getStripDefault kvs (cs "profile_snapshot")
    let ts ← join_bullets kvs (cs "top_skills")
    let dk ← join_bullets kvs (cs "domain_knowledge")
    let mi ← join_bullets kvs (cs "mutual_interests")
    let tp ← join_bullets kvs (cs "talking_points")
    let ib ← join_bullets kvs (cs "icebreakers")
    let oq ← getStripDefault kvs (cs "opening_question")
    let md0 := (cs "# Connection Prep Brief\n\n**Snapshot**  \n") ++ snap
      ++ (cs "\n\n## Top Skills\n") ++ ts
      ++ (cs "\n\n## Domain Knowledge\n") ++ dk
      ++ (cs "\n\n## Mutual Interests\n") ++ mi
      ++ (cs "\n\n## Talking Points\n") ++ tp
      ++ (cs "\n\n## Icebreakers\n") ++ ib
      ++ (cs "\n\n**Opening question:** ") ++ oq ++ (cs "\n\n")
    let md1 ←
      if (objGet kvs (cs "sample_dm")).isSome && truthyOpt (objGet kvs (cs "sample_dm")) then
        (getStripRequired kvs (cs "sample_dm")).map
          (fun s => md0 ++ (cs "## Sample LinkedIn DM\n") ++ s ++ (cs "\n\n"))
      else some md0
    let md2 ←
      if (objGet kvs (cs "email_subject")).isSome && truthyOpt (objGet kvs (cs "email_subject")) then
        (getStripRequired kvs (cs "email_subject")).map
          (fun s => md1 ++ (cs "**Email subject:** ") ++ s ++ (cs "\n\n"))
      else some md1
    if (objGet kvs (cs "meeting_agenda")).isSome && truthyOpt (objGet kvs (cs "meeting_agenda")) then
      (join_bullets kvs (cs "meeting_agenda")).map
        (fun jb => md2 ++ (cs "## Suggested Agenda\n") ++ jb ++ (cs "\n"))
    else some md2
  | _ => none

/-- Tests whether `pat` occurs as a contiguous substring (Python `pat in s`). -/
def hasSub (pat : Str) : Str → Bool
  | [] => pat.isPrefixOf []
  | c :: rest => pat.isPrefixOf (c :: rest) || hasSub pat rest

/-! ## Spec-side observation helpers (used to state the claims) -/

/-- End of the last span (`0` for the empty list). -/
def lastEnd : List (Nat × Nat) → Nat
  | [] => 0
  | [p] => p.2
  | _ :: rest => lastEnd rest

/-- Consecutive spans do not leave a gap: each starts no later than the
previous one ends. -/
def noGaps : List (Nat × Nat) → Bool
  | [] => true
  | [_] => true
  | (_, b) :: (c, d) :: rest => decide (c ≤ b) && noGaps ((c, d) :: rest)

/-- The spans cover `[0, n)` completely: the first starts at `0`, the
last ends at `n`, and there are no gaps in between. -/
def spansCoverB (n : Nat) (spans : List (Nat × Nat)) : Bool :=
  match spans with
  | [] => decide (n = 0)
  | (a, _) :: _ => decide (a = 0) && decide (lastEnd spans = n) && noGaps spans

/-- Ceiling division on naturals. -/
def ceilDiv (a b : Nat) : Nat := (a + b - 1) / b

/-- No generation-capability call occurs in the trace. -/
def noGenCalls (tr : List Call) : Bool := tr.all (fun c => !c.isGen)

/-- The `raw_text` payload of a RawBrief result, if the value is one. -/
def getRawText : Json → Option Str
  | Json.obj kvs =>
    match objGet kvs (cs "raw_text") with
    | some (Json.str s) => some s
    | _ => none
  | _ => none

def isObjB : Json → Bool
  | Json.obj _ => true
  | _ => false

/-- Length of the list stored under `key` in a produced brief, if the
brief exists, is a dict, and the value is a list. -/
def briefListLen (r : Option Json × List Call) (key : Str) : Option Nat :=
  match r.fst with
  | some (Json.obj kvs) =>
    match objGet kvs key with
    | some (Json.arr xs) => some xs.length
    | _ => none
  | _ => none

/-! ## Concrete fixtures for the claim instances -/

/-- A summarization capability that raises exactly on 1600-character
inputs (the first chunk of a 2000-character text) and succeeds elsewhere. -/
def c1FailSumm : Summarizer :=
  fun s _ _ => if s.length = 1600 then none else some (cs "ok")

/-- A summarization capability that always succeeds with `"s"`. -/
def constSumm : Summarizer := fun _ _ _ => some (cs "s")

/-- A summarization capability that always succeeds with the first three
characters of its input. -/
def takeSumm : Summarizer := fun s _ _ => some (s.take 3)

/-- A generation capability that always returns the given text. -/
def genReturn (raw : Str) : Generator := fun _ _ => some raw

def engineFast : Str := cs "Fast (FLAN-T5-small + DistilBART)"

def engineSummOnly : Str := cs "Summarization‑only (fastest, least smart)"

/-! ## Basic lemmas -/

theorem dropWhile_replicate_false {p : Char → Bool} {c : Char} (h : p c = false) (n : Nat) :
    List.dropWhile p (List.replicate n c) = List.replicate n c := by
  cases n with
  | zero => rfl
  | succ m => simp [List.replicate_succ, List.dropWhile_cons, h]

theorem pyStrip_replicate (n : Nat) (c : Char) (h : pyIsSpace c = false) :
    pyStrip (List.replicate n c) = List.replicate n c := by
  unfold pyStrip
  rw [dropWhile_replicate_false h, List.reverse_replicate, dropWhile_replicate_false h,
      List.reverse_replicate]

theorem pyStrip_length_le (s : Str) : (pyStrip s).length ≤ s.length := by
  unfold pyStrip
  have h1 := (List.dropWhile_sublist (l := (List.dropWhile pyIsSpace s).reverse) pyIsSpace).length_le
  have h2 := (List.dropWhile_sublist (l := s) pyIsSpace).length_le
  simp only [List.length_reverse] at h1 ⊢
  omega

theorem replicate_char_ne_nil (n : Nat) (c : Char) (h : 0 < n) :
    (List.replicate n c : Str) ≠ [] := by
  intro he
  have := congrArg List.length he
  simp at this
  omega

theorem chunk_text_replicate_4000 :
    chunk_text (List.replicate 4000 'a') 1600 150 =
      [List.replicate 1600 'a', List.replicate 1600 'a', List.replicate 1100 'a'] := by
  have hs : pyStrip (List.replicate 4000 'a') = List.replicate 4000 'a' :=
    pyStrip_replicate _ _ (by decide)
  have hspans : chunkSpans 4000 1600 150 = [(0, 1600), (1450, 3050), (2900, 4000)] := rfl
  show (if pyStrip (List.replicate 4000 'a') = [] then []
    else (chunkSpans (pyStrip (List.replicate 4000 'a')).length 1600 150).map
      (fun p => pySlice (pyStrip (List.replicate 4000 'a')) p.1 p.2)) = _
  rw [hs, if_neg (replicate_char_ne_nil _ _ (by omega)), List.length_replicate, hspans]
  simp only [List.map_cons, List.map_nil, pySlice, List.take_replicate, List.drop_replicate]
  norm_num

theorem chunk_text_replicate_2000 :
    chunk_text (List.replicate 2000 'a') 1600 150 =
      [List.replicate 1600 'a', List.replicate 550 'a'] := by
  have hs : pyStrip (List.replicate 2000 'a') = List.replicate 2000 'a' :=
    pyStrip_replicate _ _ (by decide)
  have hspans : chunkSpans 2000 1600 150 = [(0, 1600), (1450, 2000)] := rfl
  show (if pyStrip (List.replicate 2000 'a') = [] then []
    else (chunkSpans (pyStrip (List.replicate 2000 'a')).length 1600 150).map
      (fun p => pySlice (pyStrip (List.replicate 2000 'a')) p.1 p.2)) = _
  rw [hs, if_neg (replicate_char_ne_nil _ _ (by omega)), List.length_replicate, hspans]
  simp only [List.map_cons, List.map_nil, pySlice, List.take_replicate, List.drop_replicate]
  norm_num

theorem summLoop_success (f : Summarizer) (maxLen minLen : Nat)
    (h : ∀ s, (f s maxLen minLen).isSome = true) (parts : List Str) :
    summLoop f maxLen minLen parts =
      (some (parts.map (fun p => (f p maxLen minLen).getD [])),
       parts.map (fun p => Call.summ p maxLen minLen)) := by
  induction parts with
  | nil => rfl
  | cons p rest ih =>
    have hp := h p
    cases hf : f p maxLen minLen with
    | none => rw [hf] at hp; simp at hp
    | some y =>
      simp [summLoop, hf, ih]

theorem chunkSpansGo_succ (n C O fuel start : Nat) :
    chunkSpansGo n C O (fuel + 1) start =
      if start < n then
        (start, min (start + C) n) ::
          (if min (start + C) n = n then [] else chunkSpansGo n C O fuel (min (start + C) n - O))
      else [] := rfl

theorem chunkSpansGo_head (n C O fuel start : Nat) :
    (chunkSpansGo n C O (fuel + 1) start).head? =
      if start < n then some (start, min (start + C) n) else none := by
  rw [chunkSpansGo_succ]
  by_cases h : start < n <;> simp [h]

/-- Forward progress: consecutive spans have strictly increasing starts. -/
theorem chunkSpansGo_chain (n C O : Nat) (hOC : O < C) :
    ∀ fuel start, List.Chain' (fun p q : Nat × Nat => p.1 < q.1) (chunkSpansGo n C O fuel start) := by
  intro fuel
  induction fuel with
  | zero => intro start; simp [chunkSpansGo]
  | succ f ih =>
    intro start
    rw [chunkSpansGo_succ]
    by_cases hlt : start < n
    · simp only [if_pos hlt]
      by_cases he : min (start + C) n = n
      · simp [he]
      · simp only [if_neg he]
        rw [List.chain'_cons']
        refine ⟨?_, ih _⟩
        intro y hy
        have hC : start + C < n := by
          rcases Nat.lt_or_ge (start + C) n with h | h
          · exact h
          · exact absurd (Nat.min_eq_right h) he
        have hmin : min (start + C) n = start + C := Nat.min_eq_left (Nat.le_of_lt hC)
        cases f with
        | zero => simp [chunkSpansGo] at hy
        | succ f' =>
          rw [chunkSpansGo_head] at hy
          by_cases h2 : min (start + C) n - O < n
          · rw [if_pos h2, Option.mem_def, Option.some.injEq] at hy
            have hy1 : y.1 = min (start + C) n - O := by rw [← hy]
            show (start, min (start + C) n).1 < y.1
            rw [hy1, hmin]
            omega
          · rw [if_neg h2] at hy; simp at hy
    · simp [hlt]

/-- Coverage: with adequate fuel the spans start at `start`, end at `n`,
and leave no gaps. -/
theorem chunkSpansGo_cover (n C O : Nat) (hOC : O < C) :
    ∀ fuel start, start < n → n - start < fuel →
      (chunkSpansGo n C O fuel start).head? = some (start, min (start + C) n) ∧
      lastEnd (chunkSpansGo n C O fuel start) = n ∧
      noGaps (chunkSpansGo n C O fuel start) = true := by
  intro fuel
  induction fuel with
  | zero => intro start h1 h2; omega
  | succ f ih =>
    intro start h1 h2
    rw [chunkSpansGo_succ, if_pos h1]
    by_cases he : min (start + C) n = n
    · simp [he, lastEnd, noGaps]
    · have hC : start + C < n := by
        rcases Nat.lt_or_ge (start + C) n with h | h
        · exact h
        · exact absurd (Nat.min_eq_right h) he
      have hmin : min (start + C) n = start + C := Nat.min_eq_left (Nat.le_of_lt hC)
      simp only [if_neg he]
      set start' := min (start + C) n - O with hstart'
      have hs'lt : start' < n := by omega
      have hs'fuel : n - start' < f := by omega
      obtain ⟨hhd, hlast, hgaps⟩ := ih start' hs'lt hs'fuel
      cases htail : chunkSpansGo n C O f start' with
      | nil => rw [htail] at hhd; simp at hhd
      | cons t0 ttail =>
        rw [htail] at hhd hlast hgaps
        simp only [List.head?_cons] at hhd
        have ht0 : t0 = (start', min (start' + C) n) := by
          rw [Option.some.injEq] at hhd
          exact hhd
        refine ⟨rfl, ?_, ?_⟩
        · show lastEnd ((start, min (start + C) n) :: t0 :: ttail) = n
          simp only [lastEnd]
          exact hlast
        · show noGaps ((start, min (start + C) n) :: t0 :: ttail) = true
          rw [noGaps]
          rcases t0 with ⟨ta, tb⟩
          have hta : ta = start' := by
            have := congrArg Prod.fst ht0; simpa using this
          simp only [Bool.and_eq_true, decide_eq_true_eq]
          constructor
          · omega
          · exact hgaps

/-- Chunk count bound. -/
theorem chunkSpansGo_length_le (n C O : Nat) (hOC : O < C) :
    ∀ fuel start, (chunkSpansGo n C O fuel start).length ≤ ceilDiv (n - start) (C - O) := by
  intro fuel
  induction fuel with
  | zero => intro start; simp [chunkSpansGo, ceilDiv]
  | succ f ih =>
    intro start
    rw [chunkSpansGo_succ]
    by_cases hlt : start < n
    · simp only [if_pos hlt]
      have hd : 0 < C - O := by omega
      by_cases he : min (start + C) n = n
      · simp only [if_pos he, List.length_cons, List.length_nil]
        have hkey : ceilDiv (n - start) (C - O) = (n - start - 1) / (C - O) + 1 := by
          unfold ceilDiv
          have e1 : n - start + (C - O) - 1 = (n - start - 1) + (C - O) := by omega
          rw [e1, Nat.add_div_right _ hd]
        rw [hkey]
        exact Nat.le_add_left 1 _
      · have hC : start + C < n := by
          rcases Nat.lt_or_ge (start + C) n with h | h
          · exact h
          · exact absurd (Nat.min_eq_right h) he
        simp only [if_neg he, List.length_cons]
        have ihx := ih (min (start + C) n - O)
        have hmin : min (start + C) n = start + C := Nat.min_eq_left (Nat.le_of_lt hC)
        have hkey : ceilDiv (n - start) (C - O) =
            ceilDiv (n - (min (start + C) n - O)) (C - O) + 1 := by
          unfold ceilDiv
          have e1 : n - start + (C - O) - 1 =
              ((n - start - 1 - (C - O)) + (C - O)) + (C - O) := by omega
          have e2 : n - (min (start + C) n - O) + (C - O) - 1 =
              (n - start - 1 - (C - O)) + (C - O) := by omega
          rw [e1, e2, Nat.add_div_right _ hd, Nat.add_div_right _ hd]
        rw [hkey]
        exact Nat.add_le_add_right ihx 1
    · simp [hlt]

/-- Every produced span is well-formed and at most `C` wide. -/
theorem chunkSpansGo_width (n C O : Nat) :
    ∀ fuel start, ∀ p ∈ chunkSpansGo n C O fuel start,
      p.1 ≤ p.2 ∧ p.2 - p.1 ≤ C ∧ p.2 ≤ n := by
  intro fuel
  induction fuel with
  | zero => intro start p hp; simp [chunkSpansGo] at hp
  | succ f ih =>
    intro start p hp
    rw [chunkSpansGo_succ] at hp
    by_cases hlt : start < n
    · rw [if_pos hlt] at hp
      rcases List.mem_cons.mp hp with h | h
      · subst h
        refine ⟨?_, ?_, Nat.min_le_right _ _⟩
        · exact le_min (Nat.le_add_right _ _) (Nat.le_of_lt hlt)
        · have := Nat.min_le_left (start + C) n; omega
      · by_cases he : min (start + C) n = n
        · rw [if_pos he] at h; simp at h
        · rw [if_neg he] at h
          exact ih _ p h
    · rw [if_neg hlt] at hp; simp at hp

/-- When `overlap < chunk_size`, the spans of `chunk_text` cover `[0, n)`
for a text of length `n`. -/
theorem chunkSpans_cover (n C O : Nat) (hOC : O < C) :
    spansCoverB n (chunkSpans n C O) = true := by
  rcases Nat.eq_zero_or_pos n with h0 | hpos
  · subst h0; rfl
  · obtain ⟨hhd, hlast, hgaps⟩ := chunkSpansGo_cover n C O hOC (n + 1) 0 hpos (by omega)
    unfold chunkSpans at *
    cases hsp : chunkSpansGo n C O (n + 1) 0 with
    | nil => rw [hsp] at hhd; simp at hhd
    | cons p rest =>
      rw [hsp] at hhd hlast hgaps
      rw [List.head?_cons, Option.some.injEq] at hhd
      rcases p with ⟨a, b⟩
      have ha : a = 0 := by
        have := congrArg Prod.fst hhd; simpa using this
      subst ha
      unfold spansCoverB
      simp [hlast, hgaps]

/-- The function `chunk_text` is the slice map of its spans over the stripped text. -/
theorem chunk_text_eq_map (s : Str) (C O : Nat) :
    chunk_text s C O = (chunkSpans (pyStrip s).length C O).map
      (fun p => pySlice (pyStrip s) p.1 p.2) := by
  by_cases h : pyStrip s = []
  · simp [chunk_text, h, chunkSpans, chunkSpansGo]
  · simp [chunk_text, h]

/-- Every produced chunk is at most `chunk_size` characters long. -/
theorem chunk_text_length_le (s : Str) (C O : Nat) :
    ∀ c ∈ chunk_text s C O, c.length ≤ C := by
  intro c hc
  rw [chunk_text_eq_map] at hc
  obtain ⟨p, hp, hpc⟩ := List.mem_map.mp hc
  unfold chunkSpans at hp
  obtain ⟨h1, h2, h3⟩ := chunkSpansGo_width (pyStrip s).length C O _ _ p hp
  subst hpc
  show (((pyStrip s).take p.2).drop p.1).length ≤ C
  rw [List.length_drop, List.length_take]
  omega

/-- Claim C5 counterexample: with the configured `chunk_size = 1600`,
`overlap = 150` (so overlap < chunk size), the input `" a "` produces the
single chunk `"a"` with span `[0, 1)` over the stripped text; those spans
do not cover the three-character original input, refuting the claim that
the spans cover the entire original text. -/
theorem chunk_text_not_cover_original :
    150 < 1600 ∧
    chunk_text (cs " a ") 1600 150 = [cs "a"] ∧
    chunkSpans (pyStrip (cs " a ")).length 1600 150 = [(0, 1)] ∧
    spansCoverB (cs " a ").length (chunkSpans (pyStrip (cs " a ")).length 1600 150) = false :=
  ⟨by decide, rfl, rfl, by decide⟩

/-- Claim C5 (amended): for every input and every configuration with
`overlap < chunk_size`, the chunk spans cover the entire *stripped* input
text with no gaps, and every produced chunk has length at most
`chunk_size`. -/
theorem chunk_text_covers_stripped (s : Str) (C O : Nat) (hOC : O < C) :
    spansCoverB (pyStrip s).length (chunkSpans (pyStrip s).length C O) = true ∧
    (chunk_text s C O).all (fun c => decide (c.length ≤ C)) = true := by
  refine ⟨chunkSpans_cover _ _ _ hOC, ?_⟩
  rw [List.all_eq_true]
  intro c hc
  simpa using chunk_text_length_le s C O c hc

theorem chunk_text_covers_stripped_witness :
    spansCoverB (pyStrip (cs " a ")).length (chunkSpans (pyStrip (cs " a ")).length 1600 150) = true ∧
    (chunk_text (cs " a ") 1600 150).all (fun c => decide (c.length ≤ 1600)) = true :=
  chunk_text_covers_stripped (cs " a ") 1600 150 (by decide)

/-- Claim C9: for `overlap < chunk_size` the chunking loop makes forward
progress (each span starts strictly after the previous one), and the
number of chunks is at most `⌈len(text) / (chunk_size - overlap)⌉`
(the model is total by construction, so progress is what remains of
the claim's termination statement). -/
theorem chunk_text_progress_and_count (s : Str) (C O : Nat) (hOC : O < C) :
    List.Chain' (fun p q : Nat × Nat => p.1 < q.1) (chunkSpans (pyStrip s).length C O) ∧
    (chunk_text s C O).length ≤ ceilDiv s.length (C - O) := by
  constructor
  · exact chunkSpansGo_chain _ C O hOC _ _
  · rw [chunk_text_eq_map, List.length_map]
    have h1 := chunkSpansGo_length_le (pyStrip s).length C O hOC ((pyStrip s).length + 1) 0
    have hmono : (pyStrip s).length - 0 ≤ s.length := by
      have := pyStrip_length_le s; omega
    unfold chunkSpans
    refine le_trans h1 ?_
    unfold ceilDiv
    exact Nat.div_le_div_right (by omega)

theorem chunk_text_progress_and_count_witness :
    List.Chain' (fun p q : Nat × Nat => p.1 < q.1) (chunkSpans (pyStrip (cs "abc")).length 2 1) ∧
    (chunk_text (cs "abc") 2 1).length ≤ ceilDiv (cs "abc").length (2 - 1) :=
  chunk_text_progress_and_count (cs "abc") 2 1 (by decide)

/-- A non-empty trimmed input of at most 1600 characters yields exactly
one chunk: the stripped text itself. -/
theorem chunk_text_single (s : Str) (h1 : pyStrip s ≠ []) (h2 : s.length ≤ 1600) :
    chunk_text s 1600 150 = [pyStrip s] := by
  have hn : (pyStrip s).length ≤ 1600 := le_trans (pyStrip_length_le s) h2
  have hpos : 0 < (pyStrip s).length := List.length_pos.mpr h1
  rw [chunk_text_eq_map]
  have hmin : min (0 + 1600) (pyStrip s).length = (pyStrip s).length :=
    Nat.min_eq_right (by omega)
  have hspans : chunkSpans (pyStrip s).length 1600 150 = [(0, (pyStrip s).length)] := by
    unfold chunkSpans
    rw [chunkSpansGo_succ, if_pos hpos, hmin, if_pos rfl]
  rw [hspans]
  simp [pySlice, List.take_length]

/-- Claim C8: for an input that is non-empty after trimming and whose length is
at most the chunk size 1600, exactly one chunk is produced — the stripped
text — and its summary is returned unchanged as the final output, with
exactly that one capability call and no merge invocation. -/
theorem summarize_single_chunk_passthrough (f : Summarizer) (text : Str) (maxL minL : Nat)
    (y : Str) (h1 : pyStrip text ≠ []) (h2 : text.length ≤ 1600)
    (hf : f (pyStrip text) maxL minL = some y) :
    chunk_text text 1600 150 = [pyStrip text] ∧
    summarize_long_text f text maxL minL = (some y, [Call.summ (pyStrip text) maxL minL]) := by
  have hc := chunk_text_single text h1 h2
  refine ⟨hc, ?_⟩
  have hcond : ¬(text = [] ∨ pyStrip text = []) := by
    rintro (h | h)
    · exact h1 (by rw [h]; rfl)
    · exact h1 h
  unfold summarize_long_text
  rw [if_neg hcond]
  simp only [hc, summLoop, hf]
  simp

theorem summarize_single_chunk_passthrough_witness :
    chunk_text (cs "  hi  ") 1600 150 = [pyStrip (cs "  hi  ")] ∧
    summarize_long_text takeSumm (cs "  hi  ") 220 80 =
      (some (cs "hi"), [Call.summ (pyStrip (cs "  hi  ")) 220 80]) :=
  summarize_single_chunk_passthrough takeSumm (cs "  hi  ") 220 80 (cs "hi")
    (by decide) (by decide) (by decide)

/-- Claim C7: the spans for a 4000-character text with chunk size 1600 and
overlap 150 are `[0,1600)`, `[1450,3050)`, `[2900,4000)`; and whenever at
least two chunks are produced and every capability call succeeds, the
trace is exactly one summarization call per chunk followed by exactly one
merge call on the space-joined partial summaries (4 calls for the
4000-character scenario). -/
theorem summarize_calls_per_chunk_plus_merge :
    chunkSpans 4000 1600 150 = [(0, 1600), (1450, 3050), (2900, 4000)] ∧
    ∀ (f : Summarizer) (text : Str) (maxL minL : Nat),
      (∀ s, (f s maxL minL).isSome = true) →
      2 ≤ (chunk_text text 1600 150).length →
      (summarize_long_text f text maxL minL).snd =
        (chunk_text text 1600 150).map (fun p => Call.summ p maxL minL) ++
          [Call.summ (List.intercalate (cs " ")
            ((chunk_text text 1600 150).map (fun p => (f p maxL minL).getD []))) maxL minL] := by
  refine ⟨rfl, ?_⟩
  intro f text maxL minL hsucc hlen
  have hne : pyStrip text ≠ [] := by
    intro hstrip
    have hempty : chunk_text text 1600 150 = [] := by simp [chunk_text, hstrip]
    rw [hempty] at hlen
    simp at hlen
  have hcond : ¬(text = [] ∨ pyStrip text = []) := by
    rintro (h | h)
    · exact hne (by rw [h]; rfl)
    · exact hne h
  unfold summarize_long_text
  rw [if_neg hcond, summLoop_success f maxL minL hsucc]
  have hlen1 : ¬ (((chunk_text text 1600 150).map (fun p => (f p maxL minL).getD [])).length = 1) := by
    rw [List.length_map]; omega
  simp only [if_neg hlen1]
  cases hm : f (List.intercalate (cs " ")
      ((chunk_text text 1600 150).map (fun p => (f p maxL minL).getD []))) maxL minL with
  | none => rfl
  | some fin => rfl

theorem summarize_calls_per_chunk_plus_merge_witness :
    (summarize_long_text constSumm (List.replicate 4000 'a') 220 80).snd =
      (chunk_text (List.replicate 4000 'a') 1600 150).map (fun p => Call.summ p 220 80) ++
        [Call.summ (List.intercalate (cs " ")
          ((chunk_text (List.replicate 4000 'a') 1600 150).map
            (fun p => (constSumm p 220 80).getD []))) 220 80] :=
  summarize_calls_per_chunk_plus_merge.2 constSumm (List.replicate 4000 'a') 220 80
    (fun _ => rfl) (by rw [chunk_text_replicate_4000]; decide)

/-- Claim C1: evaluation at the failing input.  With a summarizer that raises
on the first chunk of a 2000-character text, `summarize_long_text`
propagates the exception and aborts: no error-marker placeholder is
substituted and the second chunk is never summarized (the trace holds
only the one failing call), contradicting the claimed per-chunk
degradation. -/
theorem summarize_aborts_on_chunk_failure :
    c1FailSumm (List.replicate 1600 'a') 220 80 = none ∧
    summarize_long_text c1FailSumm (List.replicate 2000 'a') 220 80 =
      (none, [Call.summ (List.replicate 1600 'a') 220 80]) := by
  have hf1 : c1FailSumm (List.replicate 1600 'a') 220 80 = none := by
    show (if (List.replicate 1600 'a' : Str).length = 1600 then none else some (cs "ok")) = none
    rw [List.length_replicate]
    simp
  refine ⟨hf1, ?_⟩
  have hc := chunk_text_replicate_2000
  have hne : pyStrip (List.replicate 2000 'a') ≠ [] := by
    rw [pyStrip_replicate _ _ (by decide)]
    exact replicate_char_ne_nil _ _ (by omega)
  have hcond : ¬(List.replicate 2000 'a' = ([] : Str) ∨ pyStrip (List.replicate 2000 'a') = []) := by
    rintro (h | h)
    · exact replicate_char_ne_nil 2000 'a' (by omega) h
    · exact hne h
  unfold summarize_long_text
  rw [if_neg hcond, hc]
  simp only [summLoop, hf1]

/-- Claim C2 counterexample: the generation output `"  hello  "` contains no
brace at all (so no balanced span under any reading), both parse
attempts fail, and the resulting RawBrief holds `"hello"` — the stripped
text — not the verbatim generated text. -/
theorem extract_json_not_verbatim :
    ('\x7b' ∉ cs "  hello  ") ∧
    getRawText (extract_json (cs "  hello  ")) = some (cs "hello") ∧
    cs "hello" ≠ cs "  hello  " :=
  ⟨by decide, rfl, by decide⟩

/-- Claim C2 (amended): when the stripped output, narrowed to its
first-`{`-to-last-`}` span when such a span exists, fails the strict
parse, and its normalization (list-marker collapse, dash replacement)
fails the retry parse, the result is the RawBrief fallback holding that
stripped, narrowed, normalized text — not the verbatim generated text. -/
theorem extract_json_rawtext_fallback (s0 s2 s4 : Str)
    (h2 : s2 = (if pyFind (pyStrip s0) '\x7b' ≠ -1 ∧ pyRfind (pyStrip s0) '\x7d' ≠ -1 ∧
                  pyFind (pyStrip s0) '\x7b' < pyRfind (pyStrip s0) '\x7d'
                then pySlice (pyStrip s0) (pyFind (pyStrip s0) '\x7b').toNat
                       ((pyRfind (pyStrip s0) '\x7d').toNat + 1)
                else pyStrip s0))
    (h4 : s4 = pyReplace (cs "–") (cs "-")
            (pyReplace (cs "—") (cs "-") (pyReplace (cs "\n- ") (cs "\n") s2)))
    (hp1 : json_loads s2 = none) (hp2 : json_loads s4 = none) :
    extract_json s0 = Json.obj [(cs "raw_text", Json.str s4)] := by
  subst h2
  subst h4
  unfold extract_json
  simp only [hp1, hp2]

theorem extract_json_rawtext_fallback_witness :
    extract_json (cs "  hello  ") = Json.obj [(cs "raw_text", Json.str (cs "hello"))] :=
  extract_json_rawtext_fallback (cs "  hello  ") (cs "hello") (cs "hello") rfl rfl rfl rfl

/-- Claim C6: evaluation at the failing input.  The generation output `"3"`
has no brace span, parses as the JSON number `3`, and `extract_json`
returns that non-dict value unchanged: the result is neither a
BriefSections mapping nor a RawBrief, contradicting the claimed
dichotomy (and the function's own `-> Dict` annotation; the caller's
`"raw_text" in brief` then raises `TypeError`). -/
theorem extract_json_nondict_value :
    extract_json (cs "3") = Json.num (cs "3") ∧ isObjB (extract_json (cs "3")) = false :=
  ⟨rfl, rfl⟩

/-- A total summarization capability makes `summarize_long_text` total. -/
theorem summarize_long_text_total (f : Summarizer) (t : Str) (a b : Nat)
    (h : ∀ x, (f x a b).isSome = true) :
    ((summarize_long_text f t a b).fst).isSome = true := by
  unfold summarize_long_text
  by_cases hc : t = [] ∨ pyStrip t = []
  · rw [if_pos hc]; rfl
  · rw [if_neg hc, summLoop_success f a b h]
    by_cases hl : ((chunk_text t 1600 150).map (fun p => (f p a b).getD [])).length = 1
    · simp only [if_pos hl]
      rfl
    · simp only [if_neg hl]
      cases hm : f (List.intercalate (cs " ")
          ((chunk_text t 1600 150).map (fun p => (f p a b).getD []))) a b with
      | none =>
        have := h (List.intercalate (cs " ")
          ((chunk_text t 1600 150).map (fun p => (f p a b).getD [])))
        rw [hm] at this
        simp at this
      | some fin => rfl

/-- If a pair's first component is `some a`, the pair is `(some a, snd)`. -/
theorem pair_eq_of_fst {β : Type} {p : Option Str × β} {a : Str} (h : p.fst = some a) :
    p = (some a, p.snd) := by
  cases p with
  | mk o t =>
    have ho : o = some a := h
    rw [ho]

/-- Claim C3 counterexample: with a configured maximum of 3 bullets, a
generation output carrying four `top_skills` entries is returned with all
four entries — the result violates the claimed bound. -/
theorem bullet_cap_exceeded :
    briefListLen
      (generate_brief takeSumm
        (genReturn (cs "\x7b\"top_skills\": [\"a\", \"b\", \"c\", \"d\"]\x7d"))
        (genReturn []) [] [] [] engineFast 3 true true)
      (cs "top_skills") = some 4 ∧ ¬ (4 ≤ 3) :=
  ⟨rfl, by decide⟩

/-- Claim C3 (amended): the configured maximum bullet count is embedded in the
instruction text only; the parsed sections of the generation output are
returned unmodified — no list is truncated to the maximum, so
list-valued sections have exactly the lengths the generation capability
returned. -/
theorem bullet_sections_passthrough (summ : Summarizer) (flanS flanB : Generator)
    (profile posts goal : Str) (bullets : Nat) (ia idm : Bool) (raw : Str)
    (hsucc : ∀ x a b, (summ x a b).isSome = true)
    (hgen : ∀ p n, flanS p n = some raw) :
    (generate_brief summ flanS flanB profile posts goal engineFast bullets ia idm).fst =
      some (extract_json raw) := by
  have hlm : load_models summ flanS flanB engineFast = (summ, some flanS) := by
    unfold load_models engineFast
    rw [if_neg (by decide), if_neg (by decide)]
  have hp : ∃ ps tr1, (if profile ≠ [] then summarize_long_text summ profile 220 80
      else ((some [], []) : Option Str × List Call)) = (some ps, tr1) := by
    by_cases hpe : profile ≠ []
    · rw [if_pos hpe]
      have ht := summarize_long_text_total summ profile 220 80 (fun x => hsucc x 220 80)
      cases hx : (summarize_long_text summ profile 220 80).fst with
      | none => rw [hx] at ht; simp at ht
      | some v =>
        exact ⟨v, (summarize_long_text summ profile 220 80).snd, pair_eq_of_fst hx⟩
    · rw [if_neg hpe]; exact ⟨[], [], rfl⟩
  obtain ⟨ps, tr1, hp⟩ := hp
  have hq : ∃ ss tr2, (if posts ≠ [] then summarize_long_text summ posts 150 60
      else ((some [], []) : Option Str × List Call)) = (some ss, tr2) := by
    by_cases hqe : posts ≠ []
    · rw [if_pos hqe]
      have ht := summarize_long_text_total summ posts 150 60 (fun x => hsucc x 150 60)
      cases hx : (summarize_long_text summ posts 150 60).fst with
      | none => rw [hx] at ht; simp at ht
      | some v =>
        exact ⟨v, (summarize_long_text summ posts 150 60).snd, pair_eq_of_fst hx⟩
    · rw [if_neg hqe]; exact ⟨[], [], rfl⟩
  obtain ⟨ss, tr2, hq⟩ := hq
  unfold generate_brief
  simp only [hlm]
  rw [hp, hq]
  simp only [hgen]

theorem bullet_sections_passthrough_witness :
    (generate_brief takeSumm (genReturn (cs "not json")) (genReturn [])
        (cs "profile text here") [] [] engineFast 3 true true).fst =
      some (extract_json (cs "not json")) :=
  bullet_sections_passthrough takeSumm (genReturn (cs "not json")) (genReturn [])
    (cs "profile text here") [] [] 3 true true (cs "not json")
    (fun _ _ _ => rfl) (fun _ _ => rfl)

/-- The summarization loop records only summarization calls. -/
theorem summLoop_no_gen (f : Summarizer) (a b : Nat) :
    ∀ parts, noGenCalls (summLoop f a b parts).snd = true := by
  intro parts
  induction parts with
  | nil => rfl
  | cons p rest ih =>
    unfold summLoop
    cases hf : f p a b with
    | none => rfl
    | some s =>
      cases hr : summLoop f a b rest with
      | mk o tr =>
        rw [hr] at ih
        cases o with
        | none => simpa [noGenCalls, Call.isGen] using ih
        | some ss => simpa [noGenCalls, Call.isGen] using ih

/-- The function `summarize_long_text` records only summarization calls. -/
theorem summarize_no_gen (f : Summarizer) (t : Str) (a b : Nat) :
    noGenCalls (summarize_long_text f t a b).snd = true := by
  unfold summarize_long_text
  by_cases hc : t = [] ∨ pyStrip t = []
  · rw [if_pos hc]; rfl
  · rw [if_neg hc]
    have hl := summLoop_no_gen f a b (chunk_text t 1600 150)
    cases hr : summLoop f a b (chunk_text t 1600 150) with
    | mk o tr =>
      rw [hr] at hl
      cases o with
      | none => exact hl
      | some summaries =>
        by_cases h1 : summaries.length = 1
        · simp only [if_pos h1]; exact hl
        · simp only [if_neg h1]
          cases hm : f (List.intercalate (cs " ") summaries) a b with
          | none =>
            simp only [noGenCalls] at hl ⊢
            rw [List.all_append, hl]
            rfl
          | some fin =>
            simp only [noGenCalls] at hl ⊢
            rw [List.all_append, hl]
            rfl

/-- Claim C10: with the summarization-only engine selected no generation
capability is loaded; `generate_brief` makes no generation call and
returns the structured heuristic brief: `profile_snapshot` is the
profile summary truncated to at most 700 characters, `talking_points`
holds the posts summary exactly when it is non-empty, and every other
section is an empty string or empty list. -/
theorem summarization_only_structured_brief (summ : Summarizer) (flanS flanB : Generator)
    (profile posts goal : Str) (bullets : Nat) (ia idm : Bool)
    (ps ss : Str) (tr1 tr2 : List Call)
    (hp : (if profile ≠ [] then summarize_long_text summ profile 220 80
           else ((some [], []) : Option Str × List Call)) = (some ps, tr1))
    (hq : (if posts ≠ [] then summarize_long_text summ posts 150 60
           else ((some [], []) : Option Str × List Call)) = (some ss, tr2)) :
    load_models summ flanS flanB engineSummOnly = (summ, none) ∧
    generate_brief summ flanS flanB profile posts goal engineSummOnly bullets ia idm =
      (some (Json.obj
        [ (cs "profile_snapshot", Json.str (ps.take 700)),
          (cs "top_skills", Json.arr []),
          (cs "domain_knowledge", Json.arr []),
          (cs "mutual_interests", Json.arr []),
          (cs "talking_points", Json.arr (if ss ≠ [] then [Json.str ss] else [])),
          (cs "icebreakers", Json.arr []),
          (cs "opening_question", Json.str []),
          (cs "sample_dm", Json.str []),
          (cs "email_subject", Json.str []),
          (cs "meeting_agenda", Json.arr []) ]), tr1 ++ tr2) ∧
    noGenCalls (tr1 ++ tr2) = true ∧
    (ps.take 700).length ≤ 700 := by
  have hlm : load_models summ flanS flanB engineSummOnly = (summ, none) := by
    unfold load_models engineSummOnly
    rw [if_pos rfl]
  have h1 : noGenCalls tr1 = true := by
    by_cases hpe : profile ≠ []
    · rw [if_pos hpe] at hp
      have hg := summarize_no_gen summ profile 220 80
      rw [hp] at hg
      exact hg
    · rw [if_neg hpe] at hp
      have ht : tr1 = [] := (congrArg Prod.snd hp).symm
      rw [ht]; rfl
  have h2 : noGenCalls tr2 = true := by
    by_cases hqe : posts ≠ []
    · rw [if_pos hqe] at hq
      have hg := summarize_no_gen summ posts 150 60
      rw [hq] at hg
      exact hg
    · rw [if_neg hqe] at hq
      have ht : tr2 = [] := (congrArg Prod.snd hq).symm
      rw [ht]; rfl
  refine ⟨hlm, ?_, ?_, ?_⟩
  · unfold generate_brief
    simp only [hlm]
    rw [hp, hq]
  · simp only [noGenCalls, List.all_append] at h1 h2 ⊢
    simp [h1, h2]
  · rw [List.length_take]
    exact Nat.min_le_left _ _

theorem summarization_only_structured_brief_witness :
    load_models takeSumm (genReturn []) (genReturn []) engineSummOnly = (takeSumm, none) ∧
    generate_brief takeSumm (genReturn []) (genReturn [])
        (cs "hello") [] [] engineSummOnly 6 true true =
      (some (Json.obj
        [ (cs "profile_snapshot", Json.str ((cs "hel").take 700)),
          (cs "top_skills", Json.arr []),
          (cs "domain_knowledge", Json.arr []),
          (cs "mutual_interests", Json.arr []),
          (cs "talking_points", Json.arr (if (([] : Str) ≠ []) then [Json.str []] else [])),
          (cs "icebreakers", Json.arr []),
          (cs "opening_question", Json.str []),
          (cs "sample_dm", Json.str []),
          (cs "email_subject", Json.str []),
          (cs "meeting_agenda", Json.arr []) ]),
       [Call.summ (cs "hello") 220 80] ++ []) ∧
    noGenCalls ([Call.summ (cs "hello") 220 80] ++ []) = true ∧
    ((cs "hel").take 700).length ≤ 700 :=
  summarization_only_structured_brief takeSumm (genReturn []) (genReturn [])
    (cs "hello") [] [] 6 true true (cs "hel") [] [Call.summ (cs "hello") 220 80] []
    rfl rfl

theorem hasSub_of_isPrefixOf {p l : Str} (h : p.isPrefixOf l = true) : hasSub p l = true := by
  cases l with
  | nil => exact h
  | cons c rest =>
    show (p.isPrefixOf (c :: rest) || hasSub p rest) = true
    rw [h]
    rfl

theorem hasSub_append_left (a : Str) {p l : Str} (h : hasSub p l = true) :
    hasSub p (a ++ l) = true := by
  induction a with
  | nil => simpa using h
  | cons c rest ih =>
    show (p.isPrefixOf (c :: (rest ++ l)) || hasSub p (rest ++ l)) = true
    rw [ih]
    simp

theorem isPrefixOf_append_self (p b : Str) : p.isPrefixOf (p ++ b) = true := by
  induction p with
  | nil => cases b <;> rfl
  | cons c rest ih =>
    show ((c == c) && rest.isPrefixOf (rest ++ b)) = true
    rw [ih]
    simp

theorem hasSub_mid (base jb tail p : Str) : hasSub p (base ++ p ++ jb ++ tail) = true := by
  rw [List.append_assoc, List.append_assoc]
  exact hasSub_append_left base (hasSub_of_isPrefixOf (isPrefixOf_append_self _ _))

theorem agenda_map_ending (kvs : List (Str × Json)) (base md : Str)
    (hmd : Option.map (fun jb => base ++ (cs "## Suggested Agenda\n") ++ jb ++ (cs "\n"))
      (join_bullets kvs (cs "meeting_agenda")) = some md) :
    hasSub (cs "## Suggested Agenda\n") md = true := by
  cases hjb : join_bullets kvs (cs "meeting_agenda") with
  | none => rw [hjb] at hmd; exact Option.noConfusion hmd
  | some jb =>
    simp only [hjb, Option.map_some', Option.some.injEq] at hmd
    rw [← hmd]
    exact hasSub_mid _ _ _ _

/-- The markdown renderer appends the Suggested Agenda section whenever
the brief dict holds a truthy `meeting_agenda`; it never receives the
`include_agenda` flag. -/
theorem agenda_heading_follows_dict (kvs : List (Str × Json)) (v : Json) (md : Str)
    (hget : objGet kvs (cs "meeting_agenda") = some v)
    (htr : truthy v = true)
    (hmd : as_markdown (Json.obj kvs) = some md) :
    hasSub (cs "## Suggested Agenda\n") md = true := by
  have hag : ((objGet kvs (cs "meeting_agenda")).isSome &&
      truthyOpt (objGet kvs (cs "meeting_agenda"))) = true := by
    rw [hget]
    simp [truthyOpt, htr]
  unfold as_markdown at hmd
  dsimp only [] at hmd
  simp only [hag, if_true] at hmd
  cases h1 : getStripDefault kvs (cs "profile_snapshot") with
  | none =>
    simp only [h1, Option.bind_eq_bind, Option.none_bind] at hmd
    exact Option.noConfusion hmd
  | some snap =>
  simp only [h1, Option.bind_eq_bind, Option.some_bind] at hmd
  cases h2 : join_bullets kvs (cs "top_skills") with
  | none =>
    simp only [h2, Option.bind_eq_bind, Option.none_bind] at hmd
    exact Option.noConfusion hmd
  | some ts =>
  simp only [h2, Option.bind_eq_bind, Option.some_bind] at hmd
  cases h3 : join_bullets kvs (cs "domain_knowledge") with
  | none =>
    simp only [h3, Option.bind_eq_bind, Option.none_bind] at hmd
    exact Option.noConfusion hmd
  | some dk =>
  simp only [h3, Option.bind_eq_bind, Option.some_bind] at hmd
  cases h4 : join_bullets kvs (cs "mutual_interests") with
  | none =>
    simp only [h4, Option.bind_eq_bind, Option.none_bind] at hmd
    exact Option.noConfusion hmd
  | some mi =>
  simp only [h4, Option.bind_eq_bind, Option.some_bind] at hmd
  cases h5 : join_bullets kvs (cs "talking_points") with
  | none =>
    simp only [h5, Option.bind_eq_bind, Option.none_bind] at hmd
    exact Option.noConfusion hmd
  | some tp =>
  simp only [h5, Option.bind_eq_bind, Option.some_bind] at hmd
  cases h6 : join_bullets kvs (cs "icebreakers") with
  | none =>
    simp only [h6, Option.bind_eq_bind, Option.none_bind] at hmd
    exact Option.noConfusion hmd
  | some ib =>
  simp only [h6, Option.bind_eq_bind, Option.some_bind] at hmd
  cases h7 : getStripDefault kvs (cs "opening_question") with
  | none =>
    simp only [h7, Option.bind_eq_bind, Option.none_bind] at hmd
    exact Option.noConfusion hmd
  | some oq =>
  simp only [h7, Option.bind_eq_bind, Option.some_bind] at hmd
  by_cases hdm : ((objGet kvs (cs "sample_dm")).isSome &&
      truthyOpt (objGet kvs (cs "sample_dm"))) = true
  · rw [if_pos hdm] at hmd
    cases hs1 : getStripRequired kvs (cs "sample_dm") with
    | none =>
      simp only [hs1, Option.map_none', Option.bind_eq_bind, Option.none_bind] at hmd
      exact Option.noConfusion hmd
    | some s1 =>
    simp only [hs1, Option.map_some', Option.bind_eq_bind, Option.some_bind] at hmd
    by_cases hem : ((objGet kvs (cs "email_subject")).isSome &&
        truthyOpt (objGet kvs (cs "email_subject"))) = true
    · rw [if_pos hem] at hmd
      cases hs2 : getStripRequired kvs (cs "email_subject") with
      | none =>
        simp only [hs2, Option.map_none', Option.bind_eq_bind, Option.none_bind] at hmd
        exact Option.noConfusion hmd
      | some s2 =>
      simp only [hs2, Option.map_some', Option.bind_eq_bind, Option.some_bind] at hmd
      exact agenda_map_ending kvs _ md hmd
    · rw [if_neg hem] at hmd
      try simp only [Option.bind_eq_bind, Option.some_bind] at hmd
      exact agenda_map_ending kvs _ md hmd
  · rw [if_neg hdm] at hmd
    try simp only [Option.bind_eq_bind, Option.some_bind] at hmd
    by_cases hem : ((objGet kvs (cs "email_subject")).isSome &&
        truthyOpt (objGet kvs (cs "email_subject"))) = true
    · rw [if_pos hem] at hmd
      cases hs2 : getStripRequired kvs (cs "email_subject") with
      | none =>
        simp only [hs2, Option.map_none', Option.bind_eq_bind, Option.none_bind] at hmd
        exact Option.noConfusion hmd
      | some s2 =>
      simp only [hs2, Option.map_some', Option.bind_eq_bind, Option.some_bind] at hmd
      exact agenda_map_ending kvs _ md hmd
    · rw [if_neg hem] at hmd
      try simp only [Option.bind_eq_bind, Option.some_bind] at hmd
      exact agenda_map_ending kvs _ md hmd

set_option maxRecDepth 20000 in
/-- Claim C4 counterexample: a run with `include_agenda = false` whose
generation capability spontaneously returns a `meeting_agenda` section
produces a brief carrying that section, and the rendered markdown for it
contains the `## Suggested Agenda` heading — the claim that rendering
never emits an Agenda heading in such runs is false. -/
theorem agenda_rendered_despite_flag_off :
    (generate_brief takeSumm (genReturn (cs "\x7b\"meeting_agenda\": [\"item\"]\x7d"))
        (genReturn []) [] [] [] engineFast 6 false true).fst =
      some (Json.obj [(cs "meeting_agenda", Json.arr [Json.str (cs "item")])]) ∧
    ((as_markdown (Json.obj [(cs "meeting_agenda", Json.arr [Json.str (cs "item")])])).map
      (fun md => hasSub (cs "## Suggested Agenda") md)) = some true :=
  ⟨rfl, by decide⟩

set_option maxRecDepth 20000 in
/-- Claim C4 (amended): with `include_agenda = false` the assembled instruction
text contains no `meeting_agenda` request (shown on the representative
empty-input instruction, contrasted with the same instruction when the
flag is on), but the markdown renderer appends the Suggested Agenda
section whenever the brief dict holds a truthy `meeting_agenda` entry —
the renderer never receives the flag, so a spontaneously returned agenda
section is rendered. -/
theorem agenda_request_omitted_but_rendered :
    hasSub (cs "meeting_agenda") (buildTemplate [] [] [] [] 6 false true) = false ∧
    hasSub (cs "meeting_agenda") (buildTemplate [] [] [] [] 6 true true) = true ∧
    ∀ (kvs : List (Str × Json)) (v : Json) (md : Str),
      objGet kvs (cs "meeting_agenda") = some v → truthy v = true →
      as_markdown (Json.obj kvs) = some md →
      hasSub (cs "## Suggested Agenda\n") md = true :=
  ⟨by decide, by decide, agenda_heading_follows_dict⟩

set_option maxRecDepth 20000 in
theorem agenda_request_omitted_but_rendered_witness :
    hasSub (cs "## Suggested Agenda\n")
      ((as_markdown (Json.obj [(cs "meeting_agenda", Json.arr [Json.str (cs "item")])])).getD [])
      = true :=
  agenda_request_omitted_but_rendered.2.2
    [(cs "meeting_agenda", Json.arr [Json.str (cs "item")])]
    (Json.arr [Json.str (cs "item")])
    ((as_markdown (Json.obj [(cs "meeting_agenda", Json.arr [Json.str (cs "item")])])).getD [])
    rfl rfl rfl
